import Mathlib

/-
  Shallow embedding of src/aiAssistant.py, a retrieval-augmented QA assistant
  over a corpus of help-center articles.  The external services (Pinecone vector
  index, OpenAI embeddings and chat completion, the langchain text splitter) are
  out of scope per the specification; they appear only as parameters or as the
  already-retrieved inputs of the embedded functions.  Python values that the
  program inspects dynamically (the corpus JSON, history entries) are embedded
  as explicit inductive types below.
-/

/-! ## A model of JSON values

The corpus file and the per-article `document_structure` trees are JSON.
`extract_images_from_structure` walks such a tree dynamically, so we embed JSON
values as a mutual inductive (objects are association lists; the Python dicts
they model have unique keys, and every concrete value used below does too). -/

mutual

inductive Json where
  | null
  | bool (b : Bool)
  | num (n : Int)
  | str (s : String)
  | arr (items : JsonArr)
  | obj (fields : JsonObj)
deriving DecidableEq, Repr

inductive JsonArr where
  | nil
  | cons (hd : Json) (tl : JsonArr)
deriving DecidableEq, Repr

inductive JsonObj where
  | nil
  | cons (key : String) (val : Json) (tl : JsonObj)
deriving DecidableEq, Repr

end

/-- Lookup of a key in a JSON object, Python dict access `d.get(k)`:
the first binding wins (Python dicts have unique keys). -/
def JsonObj.get : JsonObj → String → Option Json
  | .nil, _ => none
  | .cons k v tl, key => if k = key then some v else tl.get key

/-- Python membership test `k in d` on a dict. -/
def JsonObj.hasKey : JsonObj → String → Bool
  | .nil, _ => false
  | .cons k _ tl, key => k = key || tl.hasKey key

/-- Python truthiness of a JSON value: None, False, 0, the empty string, the
empty list and the empty dict are falsy, everything else truthy. -/
def Json.truthy : Json → Bool
  | .null => false
  | .bool b => b
  | .num n => n != 0
  | .str s => s ≠ ""
  | .arr a => a ≠ JsonArr.nil
  | .obj o => o ≠ JsonObj.nil

/-! ## extract_images_from_structure (src/aiAssistant.py lines 190-204)

Recursive walk of a document_structure tree: a list recurses into each element;
a dict first contributes its own id when its type field is the string image and
an id key is present, then recurses into the value of every key other than
type.  Scalars contribute nothing.  The appended id is the raw JSON value, as
in the Python code. -/

mutual

def extract_images_from_structure : Json → List Json
  | .arr items => extractImagesArr items
  | .obj fields =>
      (if fields.get "type" = some (Json.str "image") ∧ fields.hasKey "id" = true
       then [(fields.get "id").getD Json.null]
       else [])
      ++ extractImagesObj fields
  | _ => []

def extractImagesArr : JsonArr → List Json
  | .nil => []
  | .cons hd tl => extract_images_from_structure hd ++ extractImagesArr tl

def extractImagesObj : JsonObj → List Json
  | .nil => []
  | .cons k v tl =>
      (if k ≠ "type" then extract_images_from_structure v else []) ++ extractImagesObj tl

end

/-! ## The inline-image regex (src/aiAssistant.py line 171)

Python scans full_content with `re.findall` for the fixed pattern
given by bang, bracketed Image, parenthesis, IMAGE_ID colon, one or more
digits, closing parenthesis; the capture group is the digit run.  `findall`
scans left to right and matches are non-overlapping: after a match the scan
resumes right after its last character.  We embed this scan directly. -/

/-- The literal head of an inline image token, everything before the digits. -/
def imageTokenHead : List Char := "![Image](IMAGE_ID:".toList

/-- Match the digit run and the closing parenthesis of an image token at the
head of the character list, returning the captured digits and the characters
after the closing parenthesis. -/
def matchDigitsClose (rest : List Char) : Option (String × List Char) :=
  match rest.takeWhile (fun c => c.isDigit),
        rest.drop (rest.takeWhile (fun c => c.isDigit)).length with
  | [], _ => none
  | ds, ')' :: rest2 => some (String.mk ds, rest2)
  | _, _ => none

/-- Try to match one full image token at the head of the character list.
On success, return the captured digit run and the characters after the
closing parenthesis. -/
def matchImageToken (cs : List Char) : Option (String × List Char) :=
  if imageTokenHead = cs.take imageTokenHead.length then
    matchDigitsClose (cs.drop imageTokenHead.length)
  else none

/-- A successful digit-and-close match consumes at least one character. -/
theorem matchDigitsClose_shrinks (rest : List Char) (ds : String) (rest2 : List Char)
    (h : matchDigitsClose rest = some (ds, rest2)) : rest2.length < rest.length := by
  unfold matchDigitsClose at h
  split at h
  · exact absurd h (by simp)
  case h_2 ds' c rest2' hdrop hne =>
    injection h with h1
    injection h1 with hds hrest
    subst hrest
    have hle : (rest.drop (rest.takeWhile (fun c => c.isDigit)).length).length ≤ rest.length := by
      simp [List.length_drop]
    rw [hdrop] at hle
    simp at hle
    omega
  · exact absurd h (by simp)

/-- A successful token match consumes at least one character. -/
theorem matchImageToken_shrinks (cs : List Char) (ds : String) (rest : List Char)
    (h : matchImageToken cs = some (ds, rest)) : rest.length < cs.length := by
  unfold matchImageToken at h
  split at h
  case isTrue hpre =>
    have hlt := matchDigitsClose_shrinks _ _ _ h
    have hle : (cs.drop imageTokenHead.length).length ≤ cs.length := by
      simp [List.length_drop]
    omega
  case isFalse => exact absurd h (by simp)

/-- The re.findall scan, fuelled so that it is structural and reduces inside
the kernel: at each position try to match a full image token; on a match emit
the captured digits and resume after the token, otherwise advance one
character.  Every step consumes at least one character, so fuel equal to the
length of the input never runs out (findImageIdsAux_adequate below). -/
def findImageIdsAux : Nat → List Char → List String
  | 0, _ => []
  | _ + 1, [] => []
  | fuel + 1, c :: cs =>
    match matchImageToken (c :: cs) with
    | some (ds, rest) => ds :: findImageIdsAux fuel rest
    | none => findImageIdsAux fuel cs

/-- The re.findall scan over a whole character list. -/
def findImageIds (cs : List Char) : List String := findImageIdsAux cs.length cs

/-- The fuel of findImageIds is sufficient: any fuel at least the length of
the input yields the same scan, so the fuelled definition agrees with the
unbounded left-to-right scan. -/
theorem findImageIdsAux_adequate (fuel : Nat) (cs : List Char) (hfuel : cs.length ≤ fuel) :
    findImageIdsAux fuel cs = findImageIds cs := by
  induction fuel using Nat.strong_induction_on generalizing cs with
  | _ fuel ih =>
    match fuel, cs with
    | 0, [] => rfl
    | 0, c :: cs => simp at hfuel
    | fuel + 1, [] =>
        simp [findImageIdsAux, findImageIds]
    | fuel + 1, c :: cs =>
        rw [findImageIds]
        simp only [findImageIdsAux, List.length_cons]
        cases h : matchImageToken (c :: cs) with
        | some p =>
            obtain ⟨ds, rest⟩ := p
            have hlt := matchImageToken_shrinks _ _ _ h
            simp only [List.length_cons] at hlt hfuel
            dsimp only
            rw [ih fuel (by omega) rest (by omega),
                ih cs.length (by omega) rest (by omega)]
        | none =>
            simp only [List.length_cons] at hfuel
            dsimp only
            rw [ih fuel (by omega) cs (by omega),
                ih cs.length (by omega) cs (by omega)]

/-! ## The corpus data model (the processed_zendesk_docs_v2.json file)

The corpus file holds an object with a documents key mapping to an array of
article records.  The scalar fields the program reads (id, title, full_content,
last_updated, url) are JSON strings in this corpus and are embedded as
`Option String` (absent key = none); the attachments array holds JSON objects
and document_structure an arbitrary JSON tree.  Reading and parsing the file
can fail; a function that consumes the corpus therefore receives an
`Except String Corpus`: an error value stands for the exception raised by
open or json.load. -/

structure Article where
  id : Option String
  title : Option String
  full_content : Option String
  last_updated : Option String
  url : Option String
  attachments : Option (List JsonObj)
  document_structure : Option Json
deriving DecidableEq, Repr

structure Corpus where
  documents : Option (List Article)
deriving DecidableEq, Repr

/-! ## get_attachment_ids_for_articles (src/aiAssistant.py lines 139-188) -/

/-- The three per-article extraction methods, in program order
(src lines 151-175):
1. the explicit attachments list, taking each entry's id when that id is
   truthy;
2. the document_structure tree via extract_images_from_structure, when the
   tree is truthy;
3. the inline image tokens of full_content, when full_content is a nonempty
   string (the regex captures are Python strings, hence wrapped as JSON
   strings here).
Each method runs only when its field is truthy, exactly as the Python
if-guards do. -/
def articleAttachmentIds (article : Article) : List Json :=
  (match article.attachments with
   | some atts =>
       if atts ≠ [] then
         atts.bind (fun att =>
           match att.get "id" with
           | some v => if v.truthy then [v] else []
           | none => [])
       else []
   | none => [])
  ++ (match article.document_structure with
      | some ds => if ds.truthy then extract_images_from_structure ds else []
      | none => [])
  ++ (match article.full_content with
      | some c => if c ≠ "" then (findImageIds c.toList).map Json.str else []
      | none => [])

/-- Order-preserving first-occurrence deduplication.  This mirrors the explicit
loop of ask_question (src lines 247-250).  It also stands for the
`list(set(...))` of src line 186: CPython set iteration order is unspecified
there, and every claim below depends only on membership and freedom from
duplicates, which any iteration order satisfies. -/
def dedupFirstSeen {α : Type} [DecidableEq α] (l : List α) : List α :=
  l.foldl (fun acc x => if x ∈ acc then acc else acc ++ [x]) []

/-- Attachment resolution (src lines 139-188).  The entire corpus read and the
per-article scan sit inside a try block whose except clause catches every
exception, prints it and falls through; the function then deduplicates
whatever was accumulated (nothing, when the read failed) and returns it
normally.  The result is therefore always `Except.ok`: a corpus read error
never propagates out of this function. -/
def get_attachment_ids_for_articles (corpus : Except String Corpus)
    (article_ids : List String) : Except String (List Json) :=
  Except.ok (dedupFirstSeen (match corpus with
    | .error _ => ([] : List Json)
    | .ok data =>
        (data.documents.getD []).bind (fun article =>
          if (match article.id with
              | some i => article_ids.contains i
              | none => false) then
            articleAttachmentIds article
          else [])))

/-! ## The document loader inside get_vectorstore (src/aiAssistant.py lines 78-97)

For each corpus record the loader builds a langchain Document: page content
from full_content, replaced by a heading built from the title when
full_content is missing or empty, and metadata from title, id, last_updated
and url with empty or Unknown defaults. -/

structure DocMetadata where
  title : String
  article_id : String
  last_updated : String
  url : String
deriving DecidableEq, Repr

structure NormalizedDocument where
  page_content : String
  metadata : DocMetadata
deriving DecidableEq, Repr

/-- One record of the loader loop (src lines 83-97). -/
def normalizeDocument (doc : Article) : NormalizedDocument :=
  let content0 := doc.full_content.getD ""
  let content :=
    if content0 = "" then "# " ++ doc.title.getD "Untitled" ++ "\n\n" else content0
  { page_content := content
  , metadata :=
      { title := doc.title.getD "Unknown"
      , article_id := doc.id.getD ""
      , last_updated := doc.last_updated.getD ""
      , url := doc.url.getD "" } }

/-- The loader loop over data.get with the documents key and an empty default. -/
def loadDocuments (data : Corpus) : List NormalizedDocument :=
  (data.documents.getD []).map normalizeDocument

/-! ## Batched insertion inside get_vectorstore (src/aiAssistant.py lines 113-133)

The chunk list is walked by the loop over range(0, len(chunks), batch_size)
taking the slice from i to min(i + batch_size, len(chunks)); each slice is
passed to one add_documents call, one call completing before the next starts.
The list of slices, in call order, is embedded below. -/

/-- The fixed batch size of src line 114. -/
def batch_size : Nat := 100

/-- The consecutive slices the insertion loop passes to add_documents, in
order: each iteration takes the next batch_size elements and the loop ends
when the list is exhausted, so the final slice may be shorter.  Fuelled so
that the definition is structural and reduces inside the kernel; each
iteration consumes at least one element, so fuel equal to the length of the
list never runs out (insertionBatchesAux_adequate below). -/
def insertionBatchesAux {α : Type} : Nat → List α → List (List α)
  | 0, _ => []
  | _ + 1, [] => []
  | fuel + 1, l@(_ :: _) => l.take batch_size :: insertionBatchesAux fuel (l.drop batch_size)

/-- The batch schedule of the insertion loop over a whole chunk list. -/
def insertionBatches {α : Type} (l : List α) : List (List α) :=
  insertionBatchesAux l.length l

/-- The fuel of insertionBatches is sufficient: any fuel at least the length
of the list yields the same batch schedule. -/
theorem insertionBatchesAux_adequate {α : Type} (fuel : Nat) (l : List α)
    (hfuel : l.length ≤ fuel) : insertionBatchesAux fuel l = insertionBatches l := by
  induction fuel using Nat.strong_induction_on generalizing l with
  | _ fuel ih =>
    match fuel, l with
    | 0, [] => rfl
    | 0, c :: cs => simp at hfuel
    | fuel + 1, [] => simp [insertionBatchesAux, insertionBatches]
    | fuel + 1, c :: cs =>
        rw [insertionBatches]
        simp only [insertionBatchesAux, List.length_cons]
        simp only [List.length_cons] at hfuel
        have hdl : (List.drop batch_size (c :: cs)).length = cs.length + 1 - batch_size := by
          simp [List.length_drop]
        have hbs : 1 ≤ batch_size := by decide
        rw [ih fuel (by omega) _ (by omega), ih cs.length (by omega) _ (by omega)]

/-- Unfolding insertionBatches on a nonempty list: the first slice of
batch_size elements, then the schedule of the remainder. -/
theorem insertionBatches_cons {α : Type} (c : α) (cs : List α) :
    insertionBatches (c :: cs)
      = (c :: cs).take batch_size :: insertionBatches ((c :: cs).drop batch_size) := by
  rw [insertionBatches]
  simp only [List.length_cons, insertionBatchesAux]
  rw [insertionBatchesAux_adequate cs.length _ (by simp only [List.length_drop, List.length_cons, batch_size] <;> omega)]

/-! ## The build path of get_vectorstore (src/aiAssistant.py lines 78-137)

The corpus read at line 78 stands outside every try block of the function:
an exception from open or json.load propagates to the caller.  On success the
records are normalized, split into chunks by the external langchain splitter
(a parameter here: its internals are out of scope per the specification), and
inserted batchwise.  The returned value embeds the insertion schedule, the
part of the build the claims speak about. -/

def get_vectorstore_build
    (split : List NormalizedDocument → List NormalizedDocument)
    (corpus : Except String Corpus) :
    Except String (List (List NormalizedDocument)) :=
  match corpus with
  | .error e => .error e
  | .ok data => .ok (insertionBatches (split (loadDocuments data)))

/-! ## ask_question (src/aiAssistant.py lines 206-374)

The retrieval call, the chat-completion call and the vector store are external
services.  ask_question receives here what those services hand the Python
code: the list of retrieved documents (content plus metadata) and the corpus
read result, and the embedding computes every deterministic value the code
builds from them: the source list, the messages sent to the model, the logged
history warnings, and the attachments component of the returned triple. -/

/-- Python str.startswith of a fixed needle: the first characters of the
string equal the needle. -/
def pyStartsWith (s p : String) : Bool :=
  decide (s.toList.take p.toList.length = p.toList)

/-- Python str.endswith of a fixed needle: the last characters of the string
equal the needle. -/
def pyEndsWith (s p : String) : Bool :=
  decide (s.toList.drop (s.toList.length - p.toList.length) = p.toList
          ∧ p.toList.length ≤ s.toList.length)

/-- Metadata of a retrieved chunk, as doc.metadata.get reads it: each field
may be absent. -/
structure HitMetadata where
  title : Option String
  article_id : Option String
  url : Option String
deriving DecidableEq, Repr

/-- A document returned by the retriever: page content plus metadata. -/
structure RetrievedDoc where
  page_content : String
  metadata : HitMetadata
deriving DecidableEq, Repr

/-- A source entry of the returned list (src lines 237-241). -/
structure Source where
  title : String
  article_id : String
  url : String
deriving DecidableEq, Repr

/-- The fixed documentation base of the synthesized article URL
(src line 235). -/
def articleUrlBase : String := "https://trilogyeffective.zendesk.com/hc/en-us/articles/"

/-- One iteration of the source-extraction loop (src lines 226-241): defaults
for missing metadata, and URL synthesis when the metadata url is empty or
does not start with http (the code criterion for an absolute URL). -/
def mkSource (m : HitMetadata) : Source :=
  let title := m.title.getD "Unknown"
  let article_id := m.article_id.getD ""
  let url0 := m.url.getD ""
  let url :=
    if url0 = "" ∨ pyStartsWith url0 "http" = false then articleUrlBase ++ article_id
    else url0
  { title := title, article_id := article_id, url := url }

/-- The article_ids accumulated by the same loop (src lines 230-231): one id
per hit whose metadata article_id defaults to a nonempty string. -/
def hitArticleIds (docs : List RetrievedDoc) : List String :=
  docs.filterMap (fun d =>
    let aid := d.metadata.article_id.getD ""
    if aid ≠ "" then some aid else none)

/-- The deduplication loop over sources (src lines 255-260): walk the source
list with a set of seen ids, keeping a source only when its article_id was
not seen before and is nonempty (Python truthiness of the id string). -/
def uniqueSourcesAux : List Source → List String → List Source
  | [], _ => []
  | s :: rest, seen =>
      if s.article_id ∉ seen ∧ s.article_id ≠ "" then
        s :: uniqueSourcesAux rest (s.article_id :: seen)
      else
        uniqueSourcesAux rest seen

/-- The deduplicated source list returned to the caller. -/
def uniqueSources (sources : List Source) : List Source :=
  uniqueSourcesAux sources []

/-! ### History filtering and message assembly (src lines 344-363) -/

/-- A Python dict whose fields the code reads as strings (role and content of
a history entry). -/
abbrev PyDict := List (String × String)

/-- Key lookup in such a dict (unique keys, first binding wins). -/
def PyDict.get (d : PyDict) (k : String) : Option String :=
  (d.find? (fun p => p.1 = k)).map (fun p => p.2)

/-- Python membership test `k in d`. -/
def PyDict.hasKey (d : PyDict) (k : String) : Bool :=
  d.any (fun p => p.1 = k)

/-- A caller-supplied history entry: either a dict or some non-dict value
(whose contents the code never reads). -/
inductive HistEntry where
  | dict (d : PyDict)
  | other
deriving DecidableEq, Repr

/-- The shape test of src line 350: a dict holding both a role and a content
key.  Entries failing it are logged with a warning and dropped. -/
def wellShaped : HistEntry → Bool
  | .dict d => d.hasKey "role" && d.hasKey "content"
  | .other => false

/-- The role test of src line 352 on a well-shaped entry: the role value is
the string user or the string assistant.  Well-shaped entries failing it are
dropped silently. -/
def forwardEntry : HistEntry → Option PyDict
  | .dict d =>
      if (d.hasKey "role" && d.hasKey "content")
          && (d.get "role" = some "user" || d.get "role" = some "assistant") then
        some d
      else none
  | .other => none

/-- The message-assembly loop (src lines 344-358): start from the system
message, walk the history appending each well-shaped user or assistant dict
unchanged and recording a warning for each entry that fails the shape test,
then append the user question.  Returns the message list and the warned
entries, in order. -/
def historyStep (acc : List PyDict × List HistEntry) (message : HistEntry) :
    List PyDict × List HistEntry :=
  match message with
  | .dict d =>
      if d.hasKey "role" && d.hasKey "content" then
        if d.get "role" = some "user" || d.get "role" = some "assistant" then
          (acc.1 ++ [d], acc.2)
        else
          acc
      else
        (acc.1, acc.2 ++ [message])
  | .other => (acc.1, acc.2 ++ [message])

/-- The full assembly: the system message first, then the history walk, then
the user question. -/
def buildMessages (system_message : String) (chat_history : List HistEntry)
    (question : String) : List PyDict × List HistEntry :=
  let acc := chat_history.foldl historyStep
    ([[("role", "system"), ("content", system_message)]], [])
  (acc.1 ++ [[("role", "user"), ("content", question)]], acc.2)

/-! ### Prompt assembly and the returned triple -/

/-- Python str() of a JSON scalar, used when an attachment id is interpolated
into an inline image token of the prompt.  Container rendering is abbreviated:
no claim reads the rendering of a container id. -/
def Json.pyStr : Json → String
  | .str s => s
  | .num n => toString n
  | .bool true => "True"
  | .bool false => "False"
  | .null => "None"
  | .arr _ => "<list>"
  | .obj _ => "<dict>"

/-- The fixed persona paragraph opening the system message (src lines
273-286); the long literal prose is abbreviated to its first sentence, no
claim reads it. -/
def personaText : String :=
  "You are an AI assistant for TIES (Trilogy Integrated Energy Solutions) software."

/-- The fixed guidelines block closing the system message (src lines
293-341); the long literal prose is abbreviated to its heading, no claim
reads it. -/
def guidelinesText : String := "Guidelines"

/-- The system message of src lines 273-341: persona, retrieved context,
image block, guidelines. -/
def systemMessageText (context image_context : String) : String :=
  personaText ++ "\n\nContext:\n" ++ context ++ "\n\n" ++ image_context
    ++ "\n\nGuidelines:\n" ++ guidelinesText

/-- The image block of src lines 263-267: empty when no attachment id was
resolved, otherwise a header line followed by one inline image token per id,
capped at the first five ids. -/
def imageContext (unique_attachment_ids : List Json) : String :=
  if unique_attachment_ids ≠ [] then
    "\n\nThe following images are available for reference:\n"
      ++ String.join ((unique_attachment_ids.take 5).map
           (fun i => "![Image](IMAGE_ID:" ++ i.pyStr ++ ")\n"))
  else ""

/-- Everything deterministic that ask_question computes and returns: the
message sequence sent to the chat-completion call, the warned history
entries, and the sources and attachments components of the returned triple
(the answer component is the model output, an external value). -/
structure AskResult where
  messages : List PyDict
  warnings : List HistEntry
  sources : List Source
  attachments : List Json
deriving Repr

/-- ask_question (src lines 206-374).  The chat_history parameter defaults to
None in Python; None and the empty list are both skipped by the
`if chat_history:` guard and are embedded as the empty list.  The returned
attachments component is the literal empty list of src line 374. -/
def ask_question (docs : List RetrievedDoc) (corpus : Except String Corpus)
    (question : String) (chat_history : List HistEntry) : AskResult :=
  let sources := docs.map (fun d => mkSource d.metadata)
  let article_ids := hitArticleIds docs
  let attachment_ids := (get_attachment_ids_for_articles corpus article_ids).toOption.getD []
  let unique_attachment_ids := dedupFirstSeen attachment_ids
  let image_context := imageContext unique_attachment_ids
  let context := String.intercalate "\n\n" (docs.map (fun d => d.page_content))
  let system_message := systemMessageText context image_context
  let unique_sources := uniqueSources sources
  let msgs := buildMessages system_message chat_history question
  { messages := msgs.1
  , warnings := msgs.2
  , sources := unique_sources
  , attachments := [] }

/-! ## General lemmas about the embedded operations -/

/-- The history fold appends to the accumulator exactly the forwarded dicts
and the warned entries, in order. -/
theorem foldl_historyStep (h : List HistEntry) (ms : List PyDict) (ws : List HistEntry) :
    h.foldl historyStep (ms, ws)
      = (ms ++ h.filterMap forwardEntry, ws ++ h.filter (fun m => !(wellShaped m))) := by
  induction h generalizing ms ws with
  | nil => simp
  | cons m t ih =>
      simp only [List.foldl_cons]
      cases m with
      | dict d =>
          by_cases hrc : (d.hasKey "role" && d.hasKey "content") = true
          · by_cases hrole :
                (d.get "role" = some "user" || d.get "role" = some "assistant")
            · have hstep : historyStep (ms, ws) (.dict d) = (ms ++ [d], ws) := by
                simp [historyStep, hrc, hrole]
              have hfe : forwardEntry (.dict d) = some d := by
                simp [forwardEntry, hrc, hrole]
              have hws : wellShaped (.dict d) = true := hrc
              rw [hstep, ih]
              simp [hfe, hws]
            · have hstep : historyStep (ms, ws) (.dict d) = (ms, ws) := by
                simp [historyStep, hrc, hrole]
              have hfe : forwardEntry (.dict d) = none := by
                simp [forwardEntry, hrc, hrole]
              have hws : wellShaped (.dict d) = true := hrc
              rw [hstep, ih]
              simp [hfe, hws]
          · have hstep : historyStep (ms, ws) (.dict d) = (ms, ws ++ [.dict d]) := by
              simp [historyStep, hrc]
            have hfe : forwardEntry (.dict d) = none := by
              simp only [forwardEntry]
              rw [if_neg]
              intro hcontra
              rw [Bool.and_eq_true] at hcontra
              exact hrc hcontra.1
            have hws : wellShaped (.dict d) = false := by
              simp only [wellShaped]
              simpa using hrc
            rw [hstep, ih]
            simp [hfe, hws]
      | other =>
          have hfe : forwardEntry HistEntry.other = none := rfl
          have hws : wellShaped HistEntry.other = false := rfl
          rw [show historyStep (ms, ws) HistEntry.other = (ms, ws ++ [HistEntry.other]) from rfl,
            ih]
          simp [hfe, hws]

/-- buildMessages in closed form: system message, forwarded history, user
question; the warnings are the entries failing the shape test. -/
theorem buildMessages_eq (sys : String) (h : List HistEntry) (q : String) :
    buildMessages sys h q
      = ([("role", "system"), ("content", sys)]
           :: (h.filterMap forwardEntry ++ [[("role", "user"), ("content", q)]]),
         h.filter (fun m => !(wellShaped m))) := by
  rw [buildMessages, foldl_historyStep]
  simp

/-- The deduplication walk returns a subsequence of its input. -/
theorem uniqueSourcesAux_sublist (l : List Source) (seen : List String) :
    (uniqueSourcesAux l seen).Sublist l := by
  induction l generalizing seen with
  | nil => simp [uniqueSourcesAux]
  | cons s t ih =>
      rw [uniqueSourcesAux]
      split_ifs with hc
      · exact (ih (s.article_id :: seen)).cons₂ s
      · exact (ih seen).cons s

/-- The article ids kept by the deduplication walk avoid the seen set and
repeat nothing. -/
theorem uniqueSourcesAux_ids (l : List Source) (seen : List String) :
    ((uniqueSourcesAux l seen).map Source.article_id).Nodup
      ∧ ∀ x ∈ (uniqueSourcesAux l seen).map Source.article_id, x ∉ seen := by
  induction l generalizing seen with
  | nil => simp [uniqueSourcesAux]
  | cons s t ih =>
      rw [uniqueSourcesAux]
      split_ifs with hc
      · obtain ⟨hnd, hout⟩ := ih (s.article_id :: seen)
        refine ⟨?_, ?_⟩
        · simp only [List.map_cons, List.nodup_cons]
          exact ⟨fun hmem => (hout _ hmem) (List.mem_cons_self _ _), hnd⟩
        · intro x hx
          simp only [List.map_cons, List.mem_cons] at hx
          rcases hx with hx | hx
          · subst hx
            exact hc.1
          · intro hxs
            exact (hout _ hx) (List.mem_cons_of_mem _ hxs)
      · exact ih seen

/-- Every source kept by the deduplication walk has a nonempty article id. -/
theorem uniqueSourcesAux_nonempty_id (l : List Source) (seen : List String)
    (s : Source) (hmem : s ∈ uniqueSourcesAux l seen) : s.article_id ≠ "" := by
  induction l generalizing seen with
  | nil => simp [uniqueSourcesAux] at hmem
  | cons a t ih =>
      rw [uniqueSourcesAux] at hmem
      split_ifs at hmem with hc
      · rcases List.mem_cons.mp hmem with h | h
        · subst h
          exact hc.2
        · exact ih _ h
      · exact ih _ hmem

/-- Every source built by the extraction loop carries a URL that starts with
http: either the metadata URL already did, or the synthesized documentation
URL (which starts with https) replaced it. -/
theorem mkSource_url_http (m : HitMetadata) : pyStartsWith (mkSource m).url "http" = true := by
  rw [mkSource]
  split_ifs with hc
  · simp only [pyStartsWith, decide_eq_true_eq]
    have hlen : ("http".toList).length ≤ (articleUrlBase.toList).length := by decide
    rw [show (articleUrlBase ++ m.article_id.getD "").toList
          = articleUrlBase.toList ++ (m.article_id.getD "").toList from String.data_append _ _]
    rw [List.take_append_of_le_length hlen]
    decide
  · push_neg at hc
    show pyStartsWith (m.url.getD "") "http" = true
    rcases Bool.eq_false_or_eq_true (pyStartsWith (m.url.getD "") "http") with hb | hb
    · exact hb
    · exact absurd hb hc.2

/-- The insertion schedule of the empty chunk list is empty, and conversely. -/
theorem insertionBatches_eq_nil_iff {α : Type} (l : List α) :
    insertionBatches l = [] ↔ l = [] := by
  cases l with
  | nil => simp [insertionBatches, insertionBatchesAux]
  | cons c cs =>
      rw [insertionBatches_cons]
      simp

/-- The batches concatenate back to the full chunk list: every chunk is
inserted exactly once, in order. -/
theorem insertionBatches_flatten {α : Type} (l : List α) :
    (insertionBatches l).flatten = l := by
  generalize hn : l.length = n
  induction n using Nat.strong_induction_on generalizing l with
  | _ n ih =>
      cases l with
      | nil => rfl
      | cons c cs =>
          rw [insertionBatches_cons, List.flatten_cons]
          have hlt : (List.drop batch_size (c :: cs)).length < n := by
            subst hn
            simp only [List.length_drop, List.length_cons, batch_size] <;> omega
          rw [ih _ hlt _ rfl]
          exact List.take_append_drop _ _

/-- Every batch of the insertion schedule is nonempty and no longer than
batch_size. -/
theorem insertionBatches_mem_bounds {α : Type} (l : List α) (b : List α)
    (hb : b ∈ insertionBatches l) : 0 < b.length ∧ b.length ≤ batch_size := by
  revert hb
  generalize hn : l.length = n
  induction n using Nat.strong_induction_on generalizing l b with
  | _ n ih =>
      intro hb
      cases l with
      | nil => simp [insertionBatches, insertionBatchesAux] at hb
      | cons c cs =>
          rw [insertionBatches_cons] at hb
          rcases List.mem_cons.mp hb with h | h
          · subst h
            constructor
            · simp [batch_size]
            · simp [List.length_take]
          · have hlt : (List.drop batch_size (c :: cs)).length < n := by
              subst hn
              simp only [List.length_drop, List.length_cons, batch_size] <;> omega
            exact ih _ hlt _ _ rfl h

/-- Every batch of the insertion schedule except possibly the last holds
exactly batch_size chunks. -/
theorem insertionBatches_dropLast_full {α : Type} (l : List α) (b : List α)
    (hb : b ∈ (insertionBatches l).dropLast) : b.length = batch_size := by
  revert hb
  generalize hn : l.length = n
  induction n using Nat.strong_induction_on generalizing l b with
  | _ n ih =>
      intro hb
      cases l with
      | nil => simp [insertionBatches, insertionBatchesAux] at hb
      | cons c cs =>
          rw [insertionBatches_cons] at hb
          by_cases hrest : List.drop batch_size (c :: cs) = []
          · rw [hrest] at hb
            simp [insertionBatches, insertionBatchesAux] at hb
          · have hne : insertionBatches (List.drop batch_size (c :: cs)) ≠ [] := by
              rw [ne_eq, insertionBatches_eq_nil_iff]
              exact hrest
            rw [List.dropLast_cons_of_ne_nil hne] at hb
            rcases List.mem_cons.mp hb with h | h
            · subst h
              have hlong : batch_size ≤ (c :: cs).length := by
                by_contra hshort
                push_neg at hshort
                refine hrest (List.drop_eq_nil_of_le ?_)
                omega
              simp only [List.length_take, List.length_cons] at *
              omega
            · have hlt : (List.drop batch_size (c :: cs)).length < n := by
                subst hn
                simp only [List.length_drop, List.length_cons, batch_size] <;> omega
              exact ih _ hlt _ _ rfl h

/-- The sources component of ask_question is the deduplicated source list of
the retrieved hits. -/
theorem ask_question_sources_eq (docs : List RetrievedDoc) (corpus : Except String Corpus)
    (q : String) (hist : List HistEntry) :
    (ask_question docs corpus q hist).sources
      = uniqueSources (docs.map (fun d => mkSource d.metadata)) := rfl

/-! ## Concrete fixtures used by the claims -/

/-- A document_structure tree holding one image node with id a2, nested under
a non-image root. -/
def c1StructTree : Json :=
  Json.obj (JsonObj.cons "type" (Json.str "doc")
    (JsonObj.cons "children"
      (Json.arr (JsonArr.cons
        (Json.obj (JsonObj.cons "type" (Json.str "image")
          (JsonObj.cons "id" (Json.str "a2") JsonObj.nil)))
        JsonArr.nil))
      JsonObj.nil))

/-- The article of claim C1 exactly as the claim words it: attachments entry
with id a1, structure image node with id a2, and the literal content token
with the non-digit id a3, twice. -/
def c1ArticleNonDigit : Article :=
  { id := some "art1"
  , title := some "T"
  , full_content := some "intro ![Image](IMAGE_ID:a3) mid ![Image](IMAGE_ID:a3) end"
  , last_updated := none
  , url := none
  , attachments := some [JsonObj.cons "id" (Json.str "a1") JsonObj.nil]
  , document_structure := some c1StructTree }

/-- The same article with a digit content id, the only shape the fixed
pattern of the code can match. -/
def c1ArticleDigits : Article :=
  { c1ArticleNonDigit with
    full_content := some "intro ![Image](IMAGE_ID:33) mid ![Image](IMAGE_ID:33) end" }

/-- Retrieved hit with article_id 42. -/
def c4docA : RetrievedDoc := ⟨"contentA", ⟨some "A", some "42", some "https://example.com/a"⟩⟩

/-- Retrieved hit with article_id 7. -/
def c4docB : RetrievedDoc := ⟨"contentB", ⟨some "B", some "7", some "https://example.com/b"⟩⟩

/-- A second retrieved hit with article_id 42. -/
def c4docC : RetrievedDoc := ⟨"contentC", ⟨some "C", some "42", some "https://example.com/c"⟩⟩

/-- A retrieved hit whose metadata has no article_id at all. -/
def c9doc : RetrievedDoc := ⟨"c", ⟨some "T", none, some "http://x"⟩⟩

/-! ## The claims -/

/-- C1, counterexample.  The claim words the third encoding as the content
token with id a3; the fixed pattern of src line 171 matches only digit ids,
so resolving the article exactly as the claim states it returns only a1 and
a2: the element set is not the stated three-element set. -/
theorem attachment_resolution_nondigit_token_cex :
    get_attachment_ids_for_articles (Except.ok ⟨some [c1ArticleNonDigit]⟩) ["art1"]
        = Except.ok [Json.str "a1", Json.str "a2"]
      ∧ Json.str "a3" ∉ [Json.str "a1", Json.str "a2"] := by
  exact ⟨rfl, by decide⟩

/-- C1, amended.  For an article carrying attachments in all three encodings
with a digit content id (attachments entry a1, structure image node a2, and
the content token with digit id 33 appearing twice), resolving that article
returns exactly the three ids, deduplicated: the repeated content id
contributes one element and the returned list has no duplicates. -/
theorem attachment_resolution_three_encodings :
    get_attachment_ids_for_articles (Except.ok ⟨some [c1ArticleDigits]⟩) ["art1"]
        = Except.ok [Json.str "a1", Json.str "a2", Json.str "33"]
      ∧ [Json.str "a1", Json.str "a2", Json.str "33"].Nodup := by
  exact ⟨rfl, by decide⟩

/-- C2, counterexample.  A corpus read or parse failure inside
get_attachment_ids_for_articles is caught by its broad except clause and the
function returns the empty id list as a normal result instead of raising. -/
theorem corpus_error_resolver_returns_normally_cex :
    get_attachment_ids_for_articles
        (Except.error "No such file or directory: processed_zendesk_docs_v2.json") ["123"]
      = Except.ok [] := rfl

/-- C2, amended.  A missing or unparseable corpus file is fatal in the build
path of get_vectorstore, whose unguarded read propagates the error to the
caller; in get_attachment_ids_for_articles the same failure is caught,
logged, and the call returns a normal (empty) id list. -/
theorem corpus_error_fatal_in_build_not_in_resolver :
    (∀ (e : String) (ids : List String),
        get_attachment_ids_for_articles (Except.error e) ids = Except.ok [])
      ∧ (∀ (split : List NormalizedDocument → List NormalizedDocument) (e : String),
        get_vectorstore_build split (Except.error e) = Except.error e) :=
  ⟨fun _ _ => rfl, fun _ _ => rfl⟩

/-- C3, counterexample.  A history entry that is a well-formed map with role
system and a content field is dropped from the forwarded messages, yet the
warning list stays empty: the dropped entry is logged nowhere, against the
claim that a warning is logged for every dropped entry. -/
theorem history_system_entry_dropped_without_warning_cex :
    (buildMessages "s" [HistEntry.dict [("role", "system"), ("content", "x")]] "q").1
        = [[("role", "system"), ("content", "s")], [("role", "user"), ("content", "q")]]
      ∧ (buildMessages "s" [HistEntry.dict [("role", "system"), ("content", "x")]] "q").2
        = [] := by
  exact ⟨by decide, by decide⟩

/-- C3, amended.  The message sequence sent to the model is the system
message, then exactly those history entries that are well-formed maps with a
role in user or assistant and a content field, in their original order, then
the new user question; a warning is logged exactly for the entries that are
not maps holding both a role and a content key, while well-formed maps with
any other role (such as system) are dropped silently. -/
theorem ask_question_history_filtering :
    ∀ (docs : List RetrievedDoc) (corpus : Except String Corpus) (q : String)
      (hist : List HistEntry),
      (∃ sys, (ask_question docs corpus q hist).messages
          = [("role", "system"), ("content", sys)]
              :: (hist.filterMap forwardEntry ++ [[("role", "user"), ("content", q)]]))
      ∧ (ask_question docs corpus q hist).warnings
          = hist.filter (fun m => !(wellShaped m)) := by
  intro docs corpus q hist
  constructor
  · refine ⟨systemMessageText (String.intercalate "\n\n" (docs.map (fun d => d.page_content)))
      (imageContext (dedupFirstSeen
        ((get_attachment_ids_for_articles corpus (hitArticleIds docs)).toOption.getD []))), ?_⟩
    show (buildMessages _ hist q).1 = _
    rw [buildMessages_eq]
  · show (buildMessages _ hist q).2 = _
    rw [buildMessages_eq]

/-- C4, confirmed.  For every sequence of retrieved hits the source list
returned by ask_question holds at most one entry per article_id (the mapped
ids repeat nothing) and is a subsequence of the per-hit sources in retrieval
order; in particular three retrieved chunks of which two share article_id 42
yield exactly one entry for 42, the first-seen one. -/
theorem sources_deduplicated_by_article_id :
    (∀ (docs : List RetrievedDoc) (corpus : Except String Corpus) (q : String)
        (hist : List HistEntry),
        (((ask_question docs corpus q hist).sources).map Source.article_id).Nodup
        ∧ ((ask_question docs corpus q hist).sources).Sublist
            (docs.map (fun d => mkSource d.metadata)))
      ∧ (ask_question [c4docA, c4docB, c4docC] (Except.error "e") "q" []).sources
          = [mkSource c4docA.metadata, mkSource c4docB.metadata] := by
  constructor
  · intro docs corpus q hist
    rw [ask_question_sources_eq]
    exact ⟨(uniqueSourcesAux_ids _ []).1, uniqueSourcesAux_sublist _ []⟩
  · decide

/-- C5, confirmed.  A hit whose metadata url is empty or does not start with
http (the code criterion for an absolute URL) gets the synthesized
documentation URL, the fixed base followed by the article_id; a metadata url
that does start with http passes through unchanged.  Concretely, url empty
with article_id 99 yields the base URL followed by 99, which ends in the
/articles/99 suffix, and a well-formed absolute url survives untouched. -/
theorem source_url_synthesis :
    (∀ m : HitMetadata,
        ((m.url.getD "" = "" ∨ pyStartsWith (m.url.getD "") "http" = false) →
            (mkSource m).url = articleUrlBase ++ m.article_id.getD "")
        ∧ (pyStartsWith (m.url.getD "") "http" = true →
            (mkSource m).url = m.url.getD ""))
      ∧ (mkSource ⟨none, some "99", some ""⟩).url = articleUrlBase ++ "99"
      ∧ pyEndsWith (mkSource ⟨none, some "99", some ""⟩).url "/articles/99" = true
      ∧ (mkSource ⟨some "T", some "7", some "https://example.com/x"⟩).url
          = "https://example.com/x" := by
  refine ⟨fun m => ⟨?_, ?_⟩, by decide, by decide, by decide⟩
  · intro h
    simp only [mkSource]
    rw [if_pos]
    rcases h with h | h
    · exact Or.inl h
    · exact Or.inr (by simp [h])
  · intro h
    simp only [mkSource]
    rw [if_neg]
    rintro (h1 | h2)
    · rw [h1] at h
      exact absurd h (by decide)
    · rw [h] at h2
      exact absurd h2 (by decide)

/-- C6, confirmed.  For every question, history, corpus state and retrieved
hit list, the attachments component of the triple ask_question returns is
the empty sequence, even though attachment ids are resolved and rendered
into the prompt image block. -/
theorem ask_question_attachments_component_empty :
    ∀ (docs : List RetrievedDoc) (corpus : Except String Corpus) (q : String)
      (hist : List HistEntry),
      (ask_question docs corpus q hist).attachments = [] :=
  fun _ _ _ _ => rfl

/-- C7, confirmed.  The build path inserts the chunk sequence as consecutive
batches in order: the schedule concatenates back to the full chunk sequence
(every chunk inserted exactly once, one batch completing before the next
starts in list order), every batch except possibly the last holds exactly
batch_size chunks, and every batch is nonempty and no longer than
batch_size. -/
theorem build_path_batch_schedule :
    (∀ (split : List NormalizedDocument → List NormalizedDocument) (data : Corpus),
        get_vectorstore_build split (Except.ok data)
          = Except.ok (insertionBatches (split (loadDocuments data))))
      ∧ (∀ (chunks : List NormalizedDocument),
        (insertionBatches chunks).flatten = chunks
        ∧ (∀ b ∈ (insertionBatches chunks).dropLast, b.length = batch_size)
        ∧ (∀ b ∈ insertionBatches chunks, 0 < b.length ∧ b.length ≤ batch_size)) :=
  ⟨fun _ _ => rfl,
   fun chunks =>
    ⟨insertionBatches_flatten chunks,
     fun b hb => insertionBatches_dropLast_full chunks b hb,
     fun b hb => insertionBatches_mem_bounds chunks b hb⟩⟩

/-- C8, confirmed.  Every NormalizedDocument built from a corpus record has
nonempty content: when full_content is absent or empty the placeholder
heading derived from the title is substituted, so no loaded document is ever
empty. -/
theorem normalized_documents_nonempty :
    ∀ doc : Article,
      0 < (normalizeDocument doc).page_content.length
      ∧ (doc.full_content.getD "" = "" →
          (normalizeDocument doc).page_content
            = "# " ++ doc.title.getD "Untitled" ++ "\n\n") := by
  intro doc
  constructor
  · simp only [normalizeDocument]
    split_ifs with hc
    · show 0 < ("# " ++ doc.title.getD "Untitled" ++ "\n\n").length
      simp only [String.length_append]
      have h2 : ("# " : String).length = 2 := rfl
      omega
    · show 0 < (doc.full_content.getD "").length
      cases hs : doc.full_content.getD "" with
      | mk cs =>
          cases cs with
          | nil => exact absurd hs (by simpa using hc)
          | cons c t => simp [String.length]
  · intro h
    simp only [normalizeDocument]
    rw [if_pos h]

/-- C9, confirmed.  Every source entry returned by ask_question has a
nonempty article_id, and a retrieved hit whose metadata lacks an article_id
contributes no entry at all: its source is filtered out by the
deduplication walk. -/
theorem sources_require_nonempty_article_id :
    (∀ (docs : List RetrievedDoc) (corpus : Except String Corpus) (q : String)
        (hist : List HistEntry),
        ((ask_question docs corpus q hist).sources).all
          (fun s => s.article_id != "") = true)
      ∧ (ask_question [c9doc] (Except.error "e") "q" []).sources = [] := by
  constructor
  · intro docs corpus q hist
    rw [ask_question_sources_eq, List.all_eq_true]
    intro s hs
    have hs' : s ∈ uniqueSourcesAux (docs.map (fun d => mkSource d.metadata)) [] := hs
    have hne := uniqueSourcesAux_nonempty_id (docs.map (fun d => mkSource d.metadata)) [] s hs'
    simpa using hne
  · decide

/-- C10, confirmed.  Every source entry returned by ask_question carries a
url starting with http: either the metadata url already did, or the
synthesized https documentation URL replaced it.  Concretely an empty
metadata url with article_id 99 becomes the https article URL. -/
theorem sources_urls_start_with_http :
    (∀ (docs : List RetrievedDoc) (corpus : Except String Corpus) (q : String)
        (hist : List HistEntry),
        ((ask_question docs corpus q hist).sources).all
          (fun s => pyStartsWith s.url "http") = true)
      ∧ (mkSource ⟨some "T", some "99", some ""⟩).url
          = "https://trilogyeffective.zendesk.com/hc/en-us/articles/99" := by
  constructor
  · intro docs corpus q hist
    rw [ask_question_sources_eq, List.all_eq_true]
    intro s hs
    have hmem : s ∈ docs.map (fun d => mkSource d.metadata) :=
      (uniqueSourcesAux_sublist (docs.map (fun d => mkSource d.metadata)) []).subset hs
    obtain ⟨d, hd, hds⟩ := List.mem_map.mp hmem
    rw [← hds]
    exact mkSource_url_http d.metadata
  · decide
